import Mathlib

/-!
Shallow embedding of the Wumpus World environment simulator from
`wumpus_env.py`: the data model (positions, directions, actions,
percepts, world state), the single-step transition function `step`,
percept generation, the arrow-ray trace, and the constructor with the
RNG draws passed as explicit oracle arguments.  Theorems about the
embedded program follow the definitions.
-/

namespace WumpusWorld

/-- Embeds the `Action` enum: the six legal actions. -/
inductive Action where
  | FORWARD
  | TURN_LEFT
  | TURN_RIGHT
  | SHOOT
  | GRAB
  | CLIMB
deriving DecidableEq, Repr

/-- Embeds the `Direction` enum: agent orientation in the grid. -/
inductive Direction where
  | N
  | E
  | S
  | W
deriving DecidableEq, Repr

/-- Embeds `Direction.left`: the direction after a 90-degree left turn. -/
def Direction.left : Direction → Direction
  | .N => .W
  | .W => .S
  | .S => .E
  | .E => .N

/-- Embeds `Direction.right`: the direction after a 90-degree right turn. -/
def Direction.right : Direction → Direction
  | .N => .E
  | .E => .S
  | .S => .W
  | .W => .N

/-- Embeds the frozen dataclass `Pos`: a 2D grid position. Python ints
are unbounded, so coordinates are `Int`. -/
structure Pos where
  x : Int
  y : Int
deriving DecidableEq, Repr

/-- Embeds `Pos.neighbors_4`: the Von Neumann neighborhood, in the order
the Python list literal builds it; the caller must still check bounds. -/
def Pos.neighbors_4 (p : Pos) : List Pos :=
  [⟨p.x + 1, p.y⟩, ⟨p.x - 1, p.y⟩, ⟨p.x, p.y + 1⟩, ⟨p.x, p.y - 1⟩]

/-- Embeds the dataclass `Percept`: the only information an agent observes. -/
structure Percept where
  stench : Bool
  breeze : Bool
  glitter : Bool
  bump : Bool
  scream : Bool
  reward : Int
deriving DecidableEq, Repr

/-- Embeds the mutable attributes of class `WumpusWorldEnv`.  The pit set
is a `List Pos` (Python uses a `set`; only membership is ever queried).
The private RNG object itself is not part of the state: the constructor
below takes its draws as explicit arguments instead. -/
structure WumpusWorldEnv where
  width : Int
  height : Int
  allow_climb_without_gold : Bool
  pit_prob : Rat
  agent_pos : Pos
  agent_dir : Direction
  gold_pos : Pos
  wumpus_pos : Pos
  wumpus_alive : Bool
  pits : List Pos
  has_gold : Bool
  arrow_available : Bool
  terminated : Bool
  dead : Bool
  last_bump : Bool
  last_scream : Bool
  steps : Nat
  total_reward : Int
deriving DecidableEq, Repr

/-- Embeds `_in_bounds`: whether a position is inside the grid. -/
def WumpusWorldEnv.in_bounds (e : WumpusWorldEnv) (p : Pos) : Bool :=
  decide (1 ≤ p.x ∧ p.x ≤ e.width ∧ 1 ≤ p.y ∧ p.y ≤ e.height)

/-- Embeds `_forward_pos`: the next position when moving forward from `p`
facing `d` (checks N, then S, then E, with W as the fallback, exactly as
the Python if-chain does). -/
def forward_pos (p : Pos) (d : Direction) : Pos :=
  match d with
  | .N => ⟨p.x, p.y + 1⟩
  | .S => ⟨p.x, p.y - 1⟩
  | .E => ⟨p.x + 1, p.y⟩
  | .W => ⟨p.x - 1, p.y⟩

/-- Embeds the `while True` loop body of `_shoot_arrow` with explicit
fuel: advance the ray one cell, return `false` on leaving the grid,
`true` on reaching the live wumpus, otherwise continue.  `none` means
the fuel ran out before the loop returned; `shootFuel` below always
suffices (proved in `shootArrowLoop_isSome`). -/
def shootArrowLoop (e : WumpusWorldEnv) : Nat → Pos → Option Bool
  | 0, _ => none
  | n + 1, p =>
    let q := forward_pos p e.agent_dir
    if e.in_bounds q = false then some false
    else if q = e.wumpus_pos ∧ e.wumpus_alive = true then some true
    else shootArrowLoop e n q

/-- Fuel that always lets `shootArrowLoop` reach the return statement of
the Python loop (the traced coordinate is strictly monotone in one axis,
so the ray leaves the grid after at most `width` or `height` in-bounds
cells). -/
def shootFuel (e : WumpusWorldEnv) : Nat :=
  e.width.toNat + e.height.toNat + 2

/-- Embeds `_shoot_arrow`: simulate the arrow flight from the agent
position in the facing direction; `true` iff it hits the live wumpus. -/
def WumpusWorldEnv.shoot_arrow (e : WumpusWorldEnv) : Bool :=
  (shootArrowLoop e (shootFuel e) e.agent_pos).getD false

/-- Embeds `_stench_at`: true if the wumpus is in the cell or an
in-bounds adjacent cell (aliveness is not consulted). -/
def WumpusWorldEnv.stench_at (e : WumpusWorldEnv) (p : Pos) : Bool :=
  if p = e.wumpus_pos then true
  else (p.neighbors_4.filter (fun n => e.in_bounds n)).any
    (fun n => decide (n = e.wumpus_pos))

/-- Embeds `_breeze_at`: true if any in-bounds adjacent cell contains a pit. -/
def WumpusWorldEnv.breeze_at (e : WumpusWorldEnv) (p : Pos) : Bool :=
  (p.neighbors_4.filter (fun n => e.in_bounds n)).any
    (fun n => decide (n ∈ e.pits))

/-- Embeds `get_percept`: the current percept, with `reward_override`
reporting the last action reward. -/
def WumpusWorldEnv.get_percept (e : WumpusWorldEnv) (reward_override : Int) : Percept :=
  { stench := e.stench_at e.agent_pos
    breeze := e.breeze_at e.agent_pos
    glitter := decide (e.agent_pos = e.gold_pos)
    bump := e.last_bump
    scream := e.last_scream
    reward := reward_override }

/-- Embeds `is_terminal`. -/
def WumpusWorldEnv.is_terminal (e : WumpusWorldEnv) : Bool :=
  e.terminated

/-- Embeds the bookkeeping at the top of `step` once the terminal
short-circuit has been passed: increment the step counter and reset the
transient percept flags. -/
def WumpusWorldEnv.tick (e : WumpusWorldEnv) : WumpusWorldEnv :=
  { e with steps := e.steps + 1, last_bump := false, last_scream := false }

/-- Embeds the `Execute action` dispatch block of `step`: the state after
the action-specific branch together with the reward accumulated so far
(base cost `-1`, `-10` extra for an actual shot, `+1000` for a
successful climb with gold). -/
def WumpusWorldEnv.dispatch (e : WumpusWorldEnv) (a : Action) : WumpusWorldEnv × Int :=
  match a with
  | .TURN_LEFT => ({ e with agent_dir := e.agent_dir.left }, -1)
  | .TURN_RIGHT => ({ e with agent_dir := e.agent_dir.right }, -1)
  | .FORWARD =>
    let nxt := forward_pos e.agent_pos e.agent_dir
    if e.in_bounds nxt then ({ e with agent_pos := nxt }, -1)
    else ({ e with last_bump := true }, -1)
  | .GRAB =>
    if e.agent_pos = e.gold_pos then ({ e with has_gold := true }, -1)
    else (e, -1)
  | .SHOOT =>
    if e.arrow_available then
      let e1 := { e with arrow_available := false }
      if e1.shoot_arrow then
        ({ e1 with wumpus_alive := false, last_scream := true }, -1 - 10)
      else (e1, -1 - 10)
    else (e, -1)
  | .CLIMB =>
    if e.agent_pos = ⟨1, 1⟩ then
      if e.allow_climb_without_gold || e.has_gold then
        if e.has_gold then ({ e with terminated := true }, -1 + 1000)
        else ({ e with terminated := true }, -1)
      else (e, -1)
    else (e, -1)

/-- Embeds the `Death check` block of `step`: skipped when the episode
was already ended by CLIMB this step; a pit, or the live wumpus sharing
the agent cell, costs `-1000` and sets `dead` and `terminated`. -/
def WumpusWorldEnv.deathCheck (e : WumpusWorldEnv) (reward : Int) : WumpusWorldEnv × Int :=
  if e.terminated = false then
    if e.agent_pos ∈ e.pits then
      ({ e with dead := true, terminated := true }, reward - 1000)
    else if e.agent_pos = e.wumpus_pos ∧ e.wumpus_alive = true then
      ({ e with dead := true, terminated := true }, reward - 1000)
    else (e, reward)
  else (e, reward)

/-- Embeds `step`: apply one action and return the new state with the
resulting percept.  Python mutates `self` and returns the percept; the
embedding returns the successor state alongside it. -/
def WumpusWorldEnv.step (e : WumpusWorldEnv) (a : Action) : WumpusWorldEnv × Percept :=
  if e.terminated then (e, e.get_percept 0)
  else
    let d := (e.tick).dispatch a
    let f := d.1.deathCheck d.2
    let e2 := { f.1 with total_reward := f.1.total_reward + f.2 }
    (e2, e2.get_percept f.2)

/-- Error raised during construction.  The Python constructor performs
no explicit validation; its only failure point is `random.choice` on an
empty sequence, which raises `IndexError`. -/
inductive InitError where
  | emptyChoice
deriving DecidableEq, Repr

/-- Models `random.Random.choice`: returns the element at the sampled
index and fails exactly when the sequence is empty (as `random.choice`
raises `IndexError` there).  `idx` abstracts the RNG draw. -/
def rngChoice (idx : Nat) : List Pos → Except InitError Pos
  | [] => .error .emptyChoice
  | p :: ps => .ok ((p :: ps).get ⟨idx % (p :: ps).length, Nat.mod_lt idx (Nat.succ_pos _)⟩)

/-- Embeds the list comprehension in `_random_non_start_pos`: every grid
cell except the start cell (1,1), x-major as in the Python nested
comprehension. -/
def nonStartCells (width height : Int) : List Pos :=
  (((List.range width.toNat).map (fun i => (i : Int) + 1)).flatMap (fun x =>
    ((List.range height.toNat).map (fun j => (j : Int) + 1)).map (fun y => Pos.mk x y))).filter
    (fun p => decide (¬ (p.x = 1 ∧ p.y = 1)))

/-- Embeds the nested loops of `_place_pits`: each non-start cell becomes
a pit when its RNG draw is below `pit_prob`.  `pitDraw` abstracts the
per-cell `rng.random()` draw (always in `[0,1)` for the real RNG, but
the definition does not rely on that). -/
def placePits (width height : Int) (pit_prob : Rat) (pitDraw : Pos → Rat) : List Pos :=
  ((((List.range width.toNat).map (fun i => (i : Int) + 1)).flatMap (fun x =>
    ((List.range height.toNat).map (fun j => (j : Int) + 1)).map (fun y => Pos.mk x y)))).filter
    (fun p => decide (¬ p = ⟨1, 1⟩ ∧ pitDraw p < pit_prob))

/-- Embeds `WumpusWorldEnv.__init__` with the RNG draws passed
explicitly: `goldIdx` and `wumpusIdx` abstract the two `choice` draws
(in that order, gold first), `pitDraw` the per-cell Bernoulli draws.
Note the constructor validates nothing: it fails only when
`_random_non_start_pos` samples from an empty cell list. -/
def WumpusWorldEnv.init (width height : Int) (allow_climb_without_gold : Bool)
    (pit_prob : Rat) (goldIdx wumpusIdx : Nat) (pitDraw : Pos → Rat) :
    Except InitError WumpusWorldEnv := do
  let gold ← rngChoice goldIdx (nonStartCells width height)
  let wumpus ← rngChoice wumpusIdx (nonStartCells width height)
  .ok { width := width
        height := height
        allow_climb_without_gold := allow_climb_without_gold
        pit_prob := pit_prob
        agent_pos := ⟨1, 1⟩
        agent_dir := .E
        gold_pos := gold
        wumpus_pos := wumpus
        wumpus_alive := true
        pits := placePits width height pit_prob pitDraw
        has_gold := false
        arrow_available := true
        terminated := false
        dead := false
        last_bump := false
        last_scream := false
        steps := 0
        total_reward := 0 }

/-- Embeds `observe` usage (`get_percept` with its default argument 0):
sample the current percept without acting. -/
def WumpusWorldEnv.observe (e : WumpusWorldEnv) : Percept :=
  e.get_percept 0

/-- Distance of the ray head to the far wall along the flight axis; it
drops by exactly one with every cell the arrow advances. -/
def rayDist (e : WumpusWorldEnv) (p : Pos) : Int :=
  match e.agent_dir with
  | .E => e.width - p.x
  | .W => p.x - 1
  | .N => e.height - p.y
  | .S => p.y - 1

/-- Concrete 2x2 world used to instantiate the theorems below: agent at
the start, gold and a live wumpus both at (2,2), no pits. -/
def baseEnv : WumpusWorldEnv :=
  { width := 2
    height := 2
    allow_climb_without_gold := true
    pit_prob := 1 / 5
    agent_pos := ⟨1, 1⟩
    agent_dir := .E
    gold_pos := ⟨2, 2⟩
    wumpus_pos := ⟨2, 2⟩
    wumpus_alive := true
    pits := []
    has_gold := false
    arrow_available := true
    terminated := false
    dead := false
    last_bump := false
    last_scream := false
    steps := 0
    total_reward := 0 }

/-- Concrete 2x1 world whose only non-start cell (2,1) is simultaneously
a pit and the live wumpus cell; a `FORWARD` from the start dies there. -/
def pitEnv : WumpusWorldEnv :=
  { baseEnv with height := 1, gold_pos := ⟨2, 1⟩, wumpus_pos := ⟨2, 1⟩, pits := [⟨2, 1⟩] }

/-- Concrete strict-mode world where the agent already holds the gold at
the start cell. -/
def goldEnv : WumpusWorldEnv :=
  { baseEnv with allow_climb_without_gold := false, has_gold := true }

/-- Concrete already-terminated world. -/
def termEnv : WumpusWorldEnv :=
  { baseEnv with terminated := true }

/-- Concrete world whose arrow has already been spent. -/
def noArrowEnv : WumpusWorldEnv :=
  { baseEnv with arrow_available := false }

/-- Degenerate pit-draw oracle used to instantiate construction calls. -/
def zeroDraw : Pos → Rat :=
  fun _ => 0

/-- Whether a construction attempt produced an environment (rather than
raising). -/
def initOk (x : Except InitError WumpusWorldEnv) : Bool :=
  match x with
  | .ok _ => true
  | .error _ => false

/-- Advancing the ray head one cell decreases `rayDist` by exactly one. -/
theorem rayDist_forward (e : WumpusWorldEnv) (p : Pos) :
    rayDist e (forward_pos p e.agent_dir) = rayDist e p - 1 := by
  cases hd : e.agent_dir <;> simp [rayDist, forward_pos, hd] <;> ring

/-- Once the ray head has reached or passed the far wall, the next cell
is out of bounds. -/
theorem notInBounds_of_rayDist_nonpos (e : WumpusWorldEnv) (p : Pos)
    (h : rayDist e p ≤ 0) : e.in_bounds (forward_pos p e.agent_dir) = false := by
  cases hd : e.agent_dir <;>
    simp only [rayDist, hd] at h <;>
    simp [WumpusWorldEnv.in_bounds, forward_pos, hd] <;>
    omega

/-- Fuel `rayDist + 1` always suffices for the arrow-ray loop: the loop
returns before the fuel runs out. -/
theorem shootArrowLoop_isSome (e : WumpusWorldEnv) :
    ∀ (n : Nat) (p : Pos), rayDist e p ≤ (n : Int) →
      shootArrowLoop e (n + 1) p ≠ none := by
  intro n
  induction n with
  | zero =>
    intro p h
    have hb := notInBounds_of_rayDist_nonpos e p (by exact_mod_cast h)
    simp [shootArrowLoop, hb]
  | succ n ih =>
    intro p h
    rw [shootArrowLoop]
    by_cases hb : e.in_bounds (forward_pos p e.agent_dir) = false
    · simp [hb]
    · by_cases hw : forward_pos p e.agent_dir = e.wumpus_pos ∧ e.wumpus_alive = true
      · simp only [hb, hw]
        split <;> simp
      · simp only [hb, hw, if_false]
        apply ih
        have hstep := rayDist_forward e p
        omega

/-- The arrow-ray loop is monotone in the fuel: once it returns a value,
more fuel returns the same value. -/
theorem shootArrowLoop_mono (e : WumpusWorldEnv) :
    ∀ (n m : Nat) (p : Pos) (b : Bool), shootArrowLoop e n p = some b → n ≤ m →
      shootArrowLoop e m p = some b := by
  intro n
  induction n with
  | zero =>
    intro m p b h
    simp [shootArrowLoop] at h
  | succ n ih =>
    intro m p b h hnm
    obtain ⟨k, rfl⟩ : ∃ k, m = k + 1 := ⟨m - 1, by omega⟩
    rw [shootArrowLoop] at h ⊢
    by_cases hb : e.in_bounds (forward_pos p e.agent_dir) = false
    · simpa [hb] using h
    · by_cases hw : forward_pos p e.agent_dir = e.wumpus_pos ∧ e.wumpus_alive = true
      · simpa [hb, hw] using h
      · simp only [hb, hw, if_false] at h ⊢
        exact ih k (forward_pos p e.agent_dir) b h (by omega)

/-- When the episode was not ended by the dispatch and the agent cell is
hazardous, the death check applies exactly one -1000 and latches `dead`
and `terminated`. -/
theorem deathCheck_hazard (e : WumpusWorldEnv) (r : Int)
    (hT : e.terminated = false)
    (hz : e.agent_pos ∈ e.pits ∨ (e.agent_pos = e.wumpus_pos ∧ e.wumpus_alive = true)) :
    e.deathCheck r = ({ e with dead := true, terminated := true }, r - 1000) := by
  by_cases hmem : e.agent_pos ∈ e.pits
  · simp [WumpusWorldEnv.deathCheck, hT, hmem]
  · have h2 := hz.resolve_left hmem
    simp [WumpusWorldEnv.deathCheck, hT, hmem, h2]

/-- When the agent cell is hazard-free, the death check is the identity. -/
theorem deathCheck_safe (e : WumpusWorldEnv) (r : Int)
    (hp : e.agent_pos ∉ e.pits)
    (hw : ¬(e.agent_pos = e.wumpus_pos ∧ e.wumpus_alive = true)) :
    e.deathCheck r = (e, r) := by
  simp [WumpusWorldEnv.deathCheck, hp, hw]

/-- A `FORWARD` dispatch always reports the bare step cost of -1. -/
theorem dispatch_forward_reward (e : WumpusWorldEnv) :
    (e.dispatch .FORWARD).2 = -1 := by
  simp only [WumpusWorldEnv.dispatch]
  split <;> rfl

/-- A terminated episode is frozen: `step` returns the state unchanged
with a zero-reward percept. -/
theorem step_frozen (e : WumpusWorldEnv) (a : Action) (h : e.terminated = true) :
    e.step a = (e, e.get_percept 0) := by
  simp [WumpusWorldEnv.step, h]

/-- The action dispatch never touches the grid dimensions, the hazard
and gold placement, the counters, or the `dead` flag. -/
theorem dispatch_frame (e : WumpusWorldEnv) (a : Action) :
    (e.dispatch a).1.width = e.width ∧ (e.dispatch a).1.height = e.height ∧
    (e.dispatch a).1.pits = e.pits ∧ (e.dispatch a).1.gold_pos = e.gold_pos ∧
    (e.dispatch a).1.wumpus_pos = e.wumpus_pos ∧ (e.dispatch a).1.steps = e.steps ∧
    (e.dispatch a).1.total_reward = e.total_reward ∧ (e.dispatch a).1.dead = e.dead := by
  cases a <;> simp only [WumpusWorldEnv.dispatch] <;> (try split_ifs) <;> simp

/-- The death check never touches anything but `dead`, `terminated` and
the reward. -/
theorem deathCheck_frame (e : WumpusWorldEnv) (r : Int) :
    (e.deathCheck r).1.width = e.width ∧ (e.deathCheck r).1.height = e.height ∧
    (e.deathCheck r).1.agent_pos = e.agent_pos ∧
    (e.deathCheck r).1.last_bump = e.last_bump ∧
    (e.deathCheck r).1.last_scream = e.last_scream ∧
    (e.deathCheck r).1.steps = e.steps := by
  simp only [WumpusWorldEnv.deathCheck]
  split_ifs <;> simp

/-- Bounds checking only consults the grid dimensions. -/
theorem in_bounds_eq (e1 e2 : WumpusWorldEnv) (p : Pos)
    (h1 : e1.width = e2.width) (h2 : e1.height = e2.height) :
    e1.in_bounds p = e2.in_bounds p := by
  simp [WumpusWorldEnv.in_bounds, h1, h2]

/-- A step leaves the grid dimensions unchanged. -/
theorem step_dims (e : WumpusWorldEnv) (a : Action) :
    (e.step a).1.width = e.width ∧ (e.step a).1.height = e.height := by
  cases ht : e.terminated
  · have h1 := dispatch_frame (e.tick) a
    have h2 := deathCheck_frame ((e.tick).dispatch a).1 ((e.tick).dispatch a).2
    simp only [WumpusWorldEnv.step, ht, Bool.false_eq_true, if_false]
    exact ⟨by rw [h2.1, h1.1]; rfl, by rw [h2.2.1, h1.2.1]; rfl⟩
  · rw [step_frozen e a ht]
    exact ⟨rfl, rfl⟩

/-- A step either leaves the agent in place or moves it one cell forward
into a target that was checked to be in bounds. -/
theorem step_pos_cases (e : WumpusWorldEnv) (a : Action) (ht : e.terminated = false) :
    (e.step a).1.agent_pos = e.agent_pos ∨
    ((e.step a).1.agent_pos = forward_pos e.agent_pos e.agent_dir ∧
      e.in_bounds (forward_pos e.agent_pos e.agent_dir) = true) := by
  have hdc := deathCheck_frame ((e.tick).dispatch a).1 ((e.tick).dispatch a).2
  have hpos : (e.step a).1.agent_pos = ((e.tick).dispatch a).1.agent_pos := by
    simp only [WumpusWorldEnv.step, ht, Bool.false_eq_true, if_false]
    exact hdc.2.2.1
  rw [hpos]
  cases a
  case FORWARD =>
    simp only [WumpusWorldEnv.dispatch]
    split_ifs with h
    · right
      exact ⟨rfl, h⟩
    · left
      rfl
  case TURN_LEFT => left; rfl
  case TURN_RIGHT => left; rfl
  case GRAB =>
    simp only [WumpusWorldEnv.dispatch]
    split_ifs <;> (left; rfl)
  case SHOOT =>
    simp only [WumpusWorldEnv.dispatch]
    split_ifs <;> (left; rfl)
  case CLIMB =>
    simp only [WumpusWorldEnv.dispatch]
    split_ifs <;> (left; rfl)

/-- The percept a step returns carries the transient bump flag of the
state after the dispatch. -/
theorem step_bump_eq (e : WumpusWorldEnv) (a : Action) (ht : e.terminated = false) :
    (e.step a).2.bump = ((e.tick).dispatch a).1.last_bump := by
  have hdc := deathCheck_frame ((e.tick).dispatch a).1 ((e.tick).dispatch a).2
  simp only [WumpusWorldEnv.step, ht, Bool.false_eq_true, if_false,
    WumpusWorldEnv.get_percept]
  exact hdc.2.2.2.1

/-- A turn step never reports a bump: the transient flag is cleared at
the start of `step` and `TURN_LEFT` does not set it again. -/
theorem step_turn_left_bump (e : WumpusWorldEnv) (h : e.terminated = false) :
    (e.step .TURN_LEFT).2.bump = false := by
  simp only [WumpusWorldEnv.step, h, Bool.false_eq_true, if_false,
    WumpusWorldEnv.dispatch, WumpusWorldEnv.tick, WumpusWorldEnv.deathCheck,
    WumpusWorldEnv.get_percept]
  split_ifs <;> rfl

/-- The element `random.choice` picks always belongs to the sequence. -/
theorem rngChoice_mem (i : Nat) (l : List Pos) (p : Pos)
    (h : rngChoice i l = .ok p) : p ∈ l := by
  cases l with
  | nil => simp [rngChoice] at h
  | cons a as =>
    simp only [rngChoice, Except.ok.injEq] at h
    rw [← h]
    exact List.get_mem _ _ _

/-- Every cell in the sampling list of `_random_non_start_pos` differs
from the start cell. -/
theorem nonStartCells_ne (w h : Int) (p : Pos) (hm : p ∈ nonStartCells w h) :
    p ≠ ⟨1, 1⟩ := by
  simp only [nonStartCells, List.mem_filter, decide_eq_true_eq] at hm
  intro hp
  subst hp
  exact hm.2 ⟨rfl, rfl⟩

/-- The pit placement never selects the start cell. -/
theorem placePits_not_start (w h : Int) (pp : Rat) (pd : Pos → Rat) :
    (⟨1, 1⟩ : Pos) ∉ placePits w h pp pd := by
  intro hm
  rw [placePits] at hm
  have hpred := (List.mem_filter.mp hm).2
  simp at hpred

/-- Construction invariants: a successfully built world never puts a pit,
the wumpus or the gold on the start cell. -/
theorem init_not_start (width height : Int) (allow : Bool) (pp : Rat)
    (gi wi : Nat) (pd : Pos → Rat) (env : WumpusWorldEnv)
    (h : WumpusWorldEnv.init width height allow pp gi wi pd = .ok env) :
    (⟨1, 1⟩ : Pos) ∉ env.pits ∧ env.wumpus_pos ≠ ⟨1, 1⟩ ∧ env.gold_pos ≠ ⟨1, 1⟩ := by
  rw [WumpusWorldEnv.init] at h
  cases hg : rngChoice gi (nonStartCells width height) with
  | error err =>
    rw [hg] at h
    simp [Bind.bind, Except.bind] at h
  | ok g =>
    cases hw2 : rngChoice wi (nonStartCells width height) with
    | error err =>
      rw [hg, hw2] at h
      simp [Bind.bind, Except.bind] at h
    | ok w =>
      rw [hg, hw2] at h
      simp only [Bind.bind, Except.bind, Except.ok.injEq] at h
      rw [← h]
      exact ⟨placePits_not_start _ _ _ _,
        nonStartCells_ne _ _ _ (rngChoice_mem _ _ _ hw2),
        nonStartCells_ne _ _ _ (rngChoice_mem _ _ _ hg)⟩

/-- Reachability invariant justifying the hazard-free hypotheses below:
whenever a step leaves the episode unterminated, the agent is neither in
a pit nor on the live wumpus cell. -/
theorem step_hazard_free (e : WumpusWorldEnv) (a : Action)
    (h : (e.step a).1.terminated = false) :
    (e.step a).1.agent_pos ∉ (e.step a).1.pits ∧
    ¬((e.step a).1.agent_pos = (e.step a).1.wumpus_pos ∧
      (e.step a).1.wumpus_alive = true) := by
  cases ht : e.terminated
  case true =>
    rw [step_frozen e a ht] at h
    rw [show (e, e.get_percept 0).1.terminated = e.terminated from rfl, ht] at h
    cases h
  case false =>
    simp only [WumpusWorldEnv.step, ht, Bool.false_eq_true, if_false,
      WumpusWorldEnv.deathCheck] at h ⊢
    split_ifs at h ⊢ with h1 h2 h3
    · exact ⟨h2, h3⟩
    · exact absurd h h1

/-- Claim C3: once `terminated` is true, `step` is a one-way-latched
no-op: it returns the current percept with reward 0 and leaves every
state component (in particular `steps` and `total_reward`) unchanged. -/
theorem claim_C3 (e : WumpusWorldEnv) (a : Action) (h : e.terminated = true) :
    (e.step a).1 = e ∧ (e.step a).2 = e.get_percept 0 ∧ (e.step a).2.reward = 0 ∧
    (e.step a).1.steps = e.steps ∧ (e.step a).1.total_reward = e.total_reward := by
  simp [WumpusWorldEnv.step, h, WumpusWorldEnv.get_percept]

/-- Witness for C3 on the concrete terminated world. -/
theorem claim_C3_witness :
    (termEnv.step .FORWARD).1 = termEnv ∧
    (termEnv.step .FORWARD).2 = termEnv.get_percept 0 ∧
    (termEnv.step .FORWARD).2.reward = 0 ∧
    (termEnv.step .FORWARD).1.steps = termEnv.steps ∧
    (termEnv.step .FORWARD).1.total_reward = termEnv.total_reward :=
  claim_C3 termEnv .FORWARD rfl

/-- Claim C7: in every percept built by `get_percept` (hence by `step`,
whose percept agrees with `get_percept` on the successor state), the
stench flag is true iff the wumpus is at the agent cell or one of its
four orthogonal in-bounds neighbors, independently of `wumpus_alive`. -/
theorem claim_C7 (e : WumpusWorldEnv) (r : Int) (a : Action) (b : Bool) :
    ((e.get_percept r).stench = true ↔
      (e.wumpus_pos = e.agent_pos ∨
        (e.wumpus_pos ∈ e.agent_pos.neighbors_4 ∧ e.in_bounds e.wumpus_pos = true)))
    ∧ ({ e with wumpus_alive := b }.get_percept r).stench = (e.get_percept r).stench
    ∧ (e.step a).2.stench = ((e.step a).1.get_percept 0).stench := by
  refine ⟨?_, rfl, ?_⟩
  · simp only [WumpusWorldEnv.get_percept, WumpusWorldEnv.stench_at]
    by_cases h : e.agent_pos = e.wumpus_pos
    · simp only [if_pos h]
      simpa using Or.inl h.symm
    · simp only [if_neg h, List.any_eq_true, List.mem_filter, decide_eq_true_eq]
      constructor
      · rintro ⟨n, ⟨hn, hbnd⟩, rfl⟩
        exact Or.inr ⟨hn, hbnd⟩
      · rintro (hw | ⟨hn, hbnd⟩)
        · exact absurd hw.symm h
        · exact ⟨e.wumpus_pos, ⟨hn, hbnd⟩, rfl⟩
  · cases ht : e.terminated <;>
      simp [WumpusWorldEnv.step, ht, WumpusWorldEnv.get_percept]

/-- Claim C8: in every percept built by `get_percept` (hence by `step`),
the glitter flag is true iff the agent stands on the gold cell,
independently of `has_gold`. -/
theorem claim_C8 (e : WumpusWorldEnv) (r : Int) (a : Action) (b : Bool) :
    ((e.get_percept r).glitter = true ↔ e.agent_pos = e.gold_pos)
    ∧ ({ e with has_gold := b }.get_percept r).glitter = (e.get_percept r).glitter
    ∧ (e.step a).2.glitter = ((e.step a).1.get_percept 0).glitter := by
  refine ⟨?_, rfl, ?_⟩
  · simp [WumpusWorldEnv.get_percept]
  · cases ht : e.terminated <;>
      simp [WumpusWorldEnv.step, ht, WumpusWorldEnv.get_percept]

/-- Claim C6: shooting with no arrow left does nothing beyond the
ordinary bookkeeping: the reward is exactly -1 (no -10 surcharge), no
scream, the arrow stays unavailable, and apart from the incremented step
counter, the -1 added to the running score and the cleared transient
flags the state is unchanged.  The two hazard-free hypotheses are the
reachable-state invariants established by `step_hazard_free`. -/
theorem claim_C6 (e : WumpusWorldEnv) (hT : e.terminated = false)
    (hA : e.arrow_available = false)
    (hp : e.agent_pos ∉ e.pits)
    (hw : ¬(e.agent_pos = e.wumpus_pos ∧ e.wumpus_alive = true)) :
    (e.step .SHOOT).1 =
      { e with steps := e.steps + 1, last_bump := false, last_scream := false,
               total_reward := e.total_reward + -1 }
    ∧ (e.step .SHOOT).2.reward = -1
    ∧ (e.step .SHOOT).2.scream = false
    ∧ (e.step .SHOOT).1.arrow_available = false := by
  have hdc := deathCheck_safe ((e.tick).dispatch .SHOOT).1 ((e.tick).dispatch .SHOOT).2
  simp only [WumpusWorldEnv.dispatch, WumpusWorldEnv.tick, hA, hT, Bool.false_eq_true,
    if_false] at hdc
  simp [WumpusWorldEnv.step, WumpusWorldEnv.tick, WumpusWorldEnv.dispatch,
    WumpusWorldEnv.get_percept, hT, hA, hdc hp hw]

/-- Witness for C6 on the concrete arrowless world. -/
theorem claim_C6_witness :
    (noArrowEnv.step .SHOOT).1 =
      { noArrowEnv with steps := noArrowEnv.steps + 1, last_bump := false,
                        last_scream := false,
                        total_reward := noArrowEnv.total_reward + -1 }
    ∧ (noArrowEnv.step .SHOOT).2.reward = -1
    ∧ (noArrowEnv.step .SHOOT).2.scream = false
    ∧ (noArrowEnv.step .SHOOT).1.arrow_available = false :=
  claim_C6 noArrowEnv rfl rfl (by decide) (by decide)

/-- Claim C5: the agent position stays inside the grid after any action;
a `FORWARD` whose target is out of bounds leaves the position unchanged
and raises the bump flag for that percept only — the flag is cleared by
the bookkeeping at the start of the next action, so a following turn
step reports no bump. -/
theorem claim_C5 (e : WumpusWorldEnv) (a : Action)
    (_hW : 1 ≤ e.width) (_hH : 1 ≤ e.height)
    (hb : e.in_bounds e.agent_pos = true) :
    (e.step a).1.in_bounds (e.step a).1.agent_pos = true
    ∧ (e.terminated = false → a = .FORWARD →
        e.in_bounds (forward_pos e.agent_pos e.agent_dir) = false →
        (e.step a).1.agent_pos = e.agent_pos ∧ (e.step a).2.bump = true)
    ∧ ((e.step a).1.tick).last_bump = false
    ∧ ((e.step a).1.terminated = false →
        ((e.step a).1.step .TURN_LEFT).2.bump = false) := by
  refine ⟨?_, ?_, rfl, fun h2 => step_turn_left_bump _ h2⟩
  · cases ht : e.terminated
    case true =>
      rw [step_frozen e a ht]
      exact hb
    case false =>
      have hdims := step_dims e a
      rw [in_bounds_eq _ e _ hdims.1 hdims.2]
      rcases step_pos_cases e a ht with h | ⟨h, hin⟩
      · rw [h]; exact hb
      · rw [h]; exact hin
  · intro ht ha hf
    subst ha
    constructor
    · rcases step_pos_cases e .FORWARD ht with h | ⟨h, hin⟩
      · exact h
      · rw [hf] at hin
        cases hin
    · rw [step_bump_eq e .FORWARD ht]
      simp only [WumpusWorldEnv.dispatch]
      split_ifs with h
      · exact absurd h (by rw [show (e.tick).in_bounds
          (forward_pos (e.tick).agent_pos (e.tick).agent_dir)
            = e.in_bounds (forward_pos e.agent_pos e.agent_dir) from rfl, hf]; simp)
      · rfl

/-- Witness for C5 on the concrete 2x2 world with a `FORWARD` step. -/
theorem claim_C5_witness :
    (baseEnv.step .FORWARD).1.in_bounds (baseEnv.step .FORWARD).1.agent_pos = true
    ∧ (baseEnv.terminated = false → Action.FORWARD = .FORWARD →
        baseEnv.in_bounds (forward_pos baseEnv.agent_pos baseEnv.agent_dir) = false →
        (baseEnv.step .FORWARD).1.agent_pos = baseEnv.agent_pos
          ∧ (baseEnv.step .FORWARD).2.bump = true)
    ∧ ((baseEnv.step .FORWARD).1.tick).last_bump = false
    ∧ ((baseEnv.step .FORWARD).1.terminated = false →
        ((baseEnv.step .FORWARD).1.step .TURN_LEFT).2.bump = false) :=
  claim_C5 baseEnv .FORWARD (by decide) (by decide) (by decide)

/-- Claim C2: entering a cell that is a pit, or the live wumpus cell
(even a cell that is both at once), adds exactly one -1000 on top of the
reward of the action dispatch and latches `dead` and `terminated`; a
`FORWARD` into a hazard therefore yields exactly -1001.  The two
placement hypotheses are the construction invariants proved in
`init_not_start`. -/
theorem claim_C2 (e : WumpusWorldEnv) (a : Action)
    (hT : e.terminated = false)
    (hp : (⟨1, 1⟩ : Pos) ∉ e.pits)
    (hw : e.wumpus_pos ≠ ⟨1, 1⟩)
    (hz : ((e.tick).dispatch a).1.agent_pos ∈ ((e.tick).dispatch a).1.pits ∨
        (((e.tick).dispatch a).1.agent_pos = ((e.tick).dispatch a).1.wumpus_pos ∧
          ((e.tick).dispatch a).1.wumpus_alive = true)) :
    (e.step a).2.reward = ((e.tick).dispatch a).2 - 1000
    ∧ (e.step a).1.dead = true
    ∧ (e.step a).1.terminated = true
    ∧ (a = .FORWARD → (e.step a).2.reward = -1001) := by
  have hterm : ((e.tick).dispatch a).1.terminated = false := by
    cases a
    case TURN_LEFT => exact hT
    case TURN_RIGHT => exact hT
    case FORWARD =>
      simp only [WumpusWorldEnv.dispatch]
      split_ifs <;> exact hT
    case GRAB =>
      simp only [WumpusWorldEnv.dispatch]
      split_ifs <;> exact hT
    case SHOOT =>
      simp only [WumpusWorldEnv.dispatch]
      split_ifs <;> exact hT
    case CLIMB =>
      simp only [WumpusWorldEnv.dispatch] at hz ⊢
      split_ifs at hz ⊢ with h1 h2 h3
      · exfalso
        have hpos : e.agent_pos = ⟨1, 1⟩ := h1
        simp only [WumpusWorldEnv.tick] at hz
        simp only [hpos] at hz
        rcases hz with hz | hz
        · exact hp hz
        · exact hw hz.1.symm
      · exfalso
        have hpos : e.agent_pos = ⟨1, 1⟩ := h1
        simp only [WumpusWorldEnv.tick] at hz
        simp only [hpos] at hz
        rcases hz with hz | hz
        · exact hp hz
        · exact hw hz.1.symm
      · exact hT
      · exact hT
  have hdc := deathCheck_hazard (((e.tick).dispatch a).1) (((e.tick).dispatch a).2)
    hterm hz
  have hrew : (e.step a).2.reward = ((e.tick).dispatch a).2 - 1000 := by
    simp only [WumpusWorldEnv.step, hT, Bool.false_eq_true, if_false, hdc,
      WumpusWorldEnv.get_percept]
  refine ⟨hrew, ?_, ?_, ?_⟩
  · simp only [WumpusWorldEnv.step, hT, Bool.false_eq_true, if_false, hdc]
  · simp only [WumpusWorldEnv.step, hT, Bool.false_eq_true, if_false, hdc]
  · intro ha
    subst ha
    rw [hrew, dispatch_forward_reward]
    norm_num

/-- Witness for C2: a `FORWARD` into the cell of `pitEnv` that is both a
pit and the live wumpus cell. -/
theorem claim_C2_witness :
    (pitEnv.step .FORWARD).2.reward = -1001
    ∧ (pitEnv.step .FORWARD).1.dead = true
    ∧ (pitEnv.step .FORWARD).1.terminated = true := by
  have h := claim_C2 pitEnv .FORWARD rfl (by decide) (by decide) (by decide)
  exact ⟨h.2.2.2 rfl, h.2.1, h.2.2.1⟩

/-- Claim C4: a climb terminates the episode exactly when performed on
the start cell with the permissive flag set or the gold in hand; a
successful climb rewards -1 plus 1000 exactly when the gold is held (999
with the gold, also in strict mode) and leaves `dead` false.  The
hazard-free hypotheses are the reachable-state invariants of
`step_hazard_free`. -/
theorem claim_C4 (e : WumpusWorldEnv)
    (hT : e.terminated = false) (hD : e.dead = false)
    (hp : e.agent_pos ∉ e.pits)
    (hw : ¬(e.agent_pos = e.wumpus_pos ∧ e.wumpus_alive = true)) :
    ((e.step .CLIMB).1.terminated = true ↔
      (e.agent_pos = ⟨1, 1⟩ ∧ (e.allow_climb_without_gold = true ∨ e.has_gold = true)))
    ∧ (e.agent_pos = ⟨1, 1⟩ → (e.allow_climb_without_gold = true ∨ e.has_gold = true) →
        ((e.step .CLIMB).2.reward = -1 + (if e.has_gold = true then 1000 else 0)
          ∧ (e.step .CLIMB).1.dead = false)) := by
  have hdc := deathCheck_safe (e.tick) (-1) hp hw
  by_cases hstart : e.agent_pos = (⟨1, 1⟩ : Pos)
  · by_cases hok : e.allow_climb_without_gold = true ∨ e.has_gold = true
    · have hok2 : ((e.tick).allow_climb_without_gold || (e.tick).has_gold) = true := by
        rcases hok with h | h <;>
          simp only [WumpusWorldEnv.tick] <;> simp [h]
      have hdisp : (e.tick).dispatch .CLIMB =
          ({ e.tick with terminated := true },
            if e.has_gold = true then -1 + 1000 else -1) := by
        simp only [WumpusWorldEnv.dispatch]
        rw [if_pos (show (e.tick).agent_pos = ⟨1, 1⟩ from hstart), if_pos hok2]
        by_cases hg : e.has_gold = true
        · rw [if_pos (show (e.tick).has_gold = true from hg), if_pos hg]
        · rw [if_neg (show ¬(e.tick).has_gold = true from hg), if_neg hg]
      have hdc2 : ({ e.tick with terminated := true } : WumpusWorldEnv).deathCheck
          (if e.has_gold = true then -1 + 1000 else -1) =
          ({ e.tick with terminated := true },
            if e.has_gold = true then -1 + 1000 else -1) := by
        simp [WumpusWorldEnv.deathCheck]
      have hterm2 : (e.step .CLIMB).1.terminated = true := by
        simp only [WumpusWorldEnv.step, hT, Bool.false_eq_true, if_false, hdisp, hdc2]
      have hrew2 : (e.step .CLIMB).2.reward =
          if e.has_gold = true then -1 + 1000 else -1 := by
        simp only [WumpusWorldEnv.step, hT, Bool.false_eq_true, if_false, hdisp, hdc2,
          WumpusWorldEnv.get_percept]
      have hdead2 : (e.step .CLIMB).1.dead = e.dead := by
        simp only [WumpusWorldEnv.step, hT, Bool.false_eq_true, if_false, hdisp, hdc2]
        rfl
      constructor
      · rw [hterm2]
        simp [hstart, hok]
      · intro _ _
        constructor
        · rw [hrew2]
          by_cases hg : e.has_gold = true <;> simp [hg]
        · rw [hdead2, hD]
    · have hok2 : ¬((e.tick).allow_climb_without_gold || (e.tick).has_gold) = true := by
        simp only [WumpusWorldEnv.tick]
        simp only [Bool.or_eq_true]
        exact hok
      have hdisp : (e.tick).dispatch .CLIMB = (e.tick, -1) := by
        simp only [WumpusWorldEnv.dispatch]
        rw [if_pos (show (e.tick).agent_pos = ⟨1, 1⟩ from hstart), if_neg hok2]
      have hterm2 : (e.step .CLIMB).1.terminated = false := by
        simp only [WumpusWorldEnv.step, hT, Bool.false_eq_true, if_false, hdisp, hdc]
        exact hT
      constructor
      · rw [hterm2]
        constructor
        · intro hfalse
          exact absurd hfalse (by simp)
        · intro hcon
          exact absurd hcon.2 hok
      · intro _ hcon
        exact absurd hcon hok
  · have hdisp : (e.tick).dispatch .CLIMB = (e.tick, -1) := by
      simp only [WumpusWorldEnv.dispatch]
      rw [if_neg (show ¬(e.tick).agent_pos = ⟨1, 1⟩ from hstart)]
    have hterm2 : (e.step .CLIMB).1.terminated = false := by
      simp only [WumpusWorldEnv.step, hT, Bool.false_eq_true, if_false, hdisp, hdc]
      exact hT
    constructor
    · rw [hterm2]
      constructor
      · intro hfalse
        exact absurd hfalse (by simp)
      · intro hcon
        exact absurd hcon.1 hstart
    · intro hcon
      exact absurd hcon hstart

/-- Witness for C4: climbing out of `goldEnv` (strict mode, gold in
hand) terminates with reward 999 and `dead` false. -/
theorem claim_C4_witness :
    ((goldEnv.step .CLIMB).1.terminated = true ↔
      (goldEnv.agent_pos = ⟨1, 1⟩ ∧
        (goldEnv.allow_climb_without_gold = true ∨ goldEnv.has_gold = true)))
    ∧ (goldEnv.agent_pos = ⟨1, 1⟩ →
        (goldEnv.allow_climb_without_gold = true ∨ goldEnv.has_gold = true) →
        ((goldEnv.step .CLIMB).2.reward = -1 + (if goldEnv.has_gold = true then 1000 else 0)
          ∧ (goldEnv.step .CLIMB).1.dead = false)) :=
  claim_C4 goldEnv rfl rfl (by decide) (by decide)

/-- Any fuel that covers the ray distance and stays below the fuel used
by `shoot_arrow` makes the loop return exactly the `shoot_arrow` value. -/
theorem shoot_total_of_fuel (e : WumpusWorldEnv) (n : Nat)
    (hd : rayDist e e.agent_pos ≤ (n : Int)) (hfuel : n + 1 ≤ shootFuel e) :
    shootArrowLoop e (n + 1) e.agent_pos = some e.shoot_arrow := by
  have hsome := shootArrowLoop_isSome e n e.agent_pos hd
  obtain ⟨b, hb⟩ := Option.ne_none_iff_exists'.mp hsome
  have hbig := shootArrowLoop_mono e _ _ e.agent_pos b hb hfuel
  have harrow : e.shoot_arrow = b := by
    simp [WumpusWorldEnv.shoot_arrow, hbig]
  rw [harrow]
  exact hb

/-- Claim C10: from any in-bounds agent position the arrow ray trace
returns within `max width height` iterations (the traced coordinate is
strictly monotone along the flight axis, so the ray leaves the grid
after at most that many in-bounds cells unless it reaches the live
wumpus first), and `shoot_arrow` — hence `step` on `SHOOT` — is total
and agrees with the bounded trace. -/
theorem claim_C10 (e : WumpusWorldEnv) (h : e.in_bounds e.agent_pos = true) :
    shootArrowLoop e (max e.width e.height).toNat e.agent_pos = some e.shoot_arrow := by
  have hbd : 1 ≤ e.agent_pos.x ∧ e.agent_pos.x ≤ e.width ∧
      1 ≤ e.agent_pos.y ∧ e.agent_pos.y ≤ e.height := by
    simpa [WumpusWorldEnv.in_bounds] using h
  obtain ⟨hx1, hx2, hy1, hy2⟩ := hbd
  rcases max_choice e.width e.height with hM | hM <;> rw [hM]
  · have hwh : e.height ≤ e.width := by
      rw [← hM]
      exact le_max_right _ _
    obtain ⟨n, hn⟩ : ∃ n, e.width.toNat = n + 1 := ⟨e.width.toNat - 1, by omega⟩
    rw [hn]
    refine shoot_total_of_fuel e n ?_ ?_
    · cases hdir : e.agent_dir <;> simp only [rayDist, hdir] <;> omega
    · rw [← hn, shootFuel]
      omega
  · have hwh : e.width ≤ e.height := by
      rw [← hM]
      exact le_max_left _ _
    obtain ⟨n, hn⟩ : ∃ n, e.height.toNat = n + 1 := ⟨e.height.toNat - 1, by omega⟩
    rw [hn]
    refine shoot_total_of_fuel e n ?_ ?_
    · cases hdir : e.agent_dir <;> simp only [rayDist, hdir] <;> omega
    · rw [← hn, shootFuel]
      omega

/-- Witness for C10 on the concrete 2x2 world. -/
theorem claim_C10_witness :
    shootArrowLoop baseEnv (max baseEnv.width baseEnv.height).toNat baseEnv.agent_pos
      = some baseEnv.shoot_arrow :=
  claim_C10 baseEnv (by decide)

/-- Claim C9: in a 1x1 grid the list of non-start cells is empty, so the
gold placement draw fails and no 1x1 environment can ever be built,
whatever the flag, probability and RNG draws are. -/
theorem claim_C9 (allow : Bool) (pp : Rat) (gi wi : Nat) (pd : Pos → Rat) :
    nonStartCells 1 1 = [] ∧
    WumpusWorldEnv.init 1 1 allow pp gi wi pd = .error .emptyChoice := by
  refine ⟨rfl, ?_⟩
  rw [WumpusWorldEnv.init]
  rw [show nonStartCells 1 1 = [] from rfl]
  rfl

/-- Counterexample to claim C1 as stated: `pit_prob = 2` lies outside
`[0,1]`, yet this concrete construction call succeeds — the constructor
validates neither the dimensions nor the probability. -/
theorem claim_C1_counterexample :
    ¬ ((2 : Rat) ≤ 1) ∧ initOk (WumpusWorldEnv.init 4 4 true 2 0 0 zeroDraw) = true := by
  constructor
  · decide
  · rfl

/-- Claim C1 (amended): construction with non-positive `width` or
`height` does fail fast — the cell list sampled for the gold placement
is empty, so the `choice` draw raises — but a `pit_prob` outside `[0,1]`
is not validated: construction succeeds, and such probabilities simply
clamp the pit placement (none below 0, every non-start cell at or above
1). -/
theorem claim_C1 (width height : Int) (allow : Bool) (pp : Rat)
    (gi wi : Nat) (pd : Pos → Rat) (h : width ≤ 0 ∨ height ≤ 0) :
    WumpusWorldEnv.init width height allow pp gi wi pd = .error .emptyChoice := by
  have hcells : nonStartCells width height = [] := by
    rcases h with h | h
    · have hw0 : width.toNat = 0 := by omega
      simp [nonStartCells, hw0]
    · have hh0 : height.toNat = 0 := by omega
      simp [nonStartCells, hh0]
  rw [WumpusWorldEnv.init, hcells]
  rfl

/-- Witness for the amended C1 at `width = 0`. -/
theorem claim_C1_witness :
    WumpusWorldEnv.init 0 3 true 0 0 0 zeroDraw = .error .emptyChoice :=
  claim_C1 0 3 true 0 0 0 zeroDraw (Or.inl (by norm_num))

end WumpusWorld
